import Mathlib

/-!
Shallow embedding of `src/inventory_system.py` (a stock ledger: a mapping
from item names to numeric quantities, with validated add/remove mutations,
threshold reporting, and JSON-object persistence).

Modelling choices:
* Python's insertion-ordered `dict` is an association list `Stock` with
  unique keys; assignment to an existing key updates it in place, a new key
  is appended, deletion removes the entry (`setKey`, `delKey`, `lookup`).
* Python quantities are `float`; they are modelled as `ℚ` (the claims are
  about control flow and map structure, not rounding).
* Dynamically typed arguments are a `PyVal`: a string, a number, or some
  other runtime value (`vOther`), mirroring the `isinstance` checks.
* Each operation takes the mapping before the call and returns the raised
  exception or the result, together with the mapping after the call
  (also after a raise), so frame and rollback properties are statable.
* File I/O is modelled at the parse boundary: `load_data` receives the
  result of `json.load` (a JSON object as a key-value list, or a non-object
  value), `save_data` produces that parsed form.  Logging is ignored: it
  never touches `stock_data`.
-/

/-- A Python runtime value as the ledger's type checks see it: a string,
a number (`int`/`float`, modelled as `ℚ`), or anything else. -/
inductive PyVal where
  | vStr (s : String)
  | vNum (q : ℚ)
  | vOther
deriving DecidableEq, Repr

/-- The exceptions the ledger raises: `ValueError` and `KeyError`, each
carrying its message. -/
inductive Err where
  | valueError (msg : String)
  | keyError (msg : String)
deriving DecidableEq, Repr

/-- The in-memory `stock_data` mapping: item name to quantity, in
insertion order (a Python `dict` with string keys and float values). -/
abbrev Stock := List (String × ℚ)

/-- `stock_data.get(key)`: the first (with unique keys, the only) binding
of `key`. -/
def lookup : Stock → String → Option ℚ
  | [], _ => none
  | (k, v) :: rest, key => if k = key then some v else lookup rest key

/-- `stock_data[key] = val`: update the existing binding in place, or
append a new one (Python dict insertion-order semantics). -/
def setKey : Stock → String → ℚ → Stock
  | [], key, val => [(key, val)]
  | (k, v) :: rest, key, val =>
      if k = key then (k, val) :: rest else (k, v) :: setKey rest key val

/-- `del stock_data[key]`: drop the binding of `key`. -/
def delKey : Stock → String → Stock
  | [], _ => []
  | (k, v) :: rest, key => if k = key then rest else (k, v) :: delKey rest key

/-- The keys of the mapping, in iteration order. -/
def keys (st : Stock) : List String := st.map Prod.fst

/-- Python's `not item.strip()`: true exactly when stripping leaves the
empty string, that is when every character is whitespace. -/
def isBlank (s : String) : Bool := s.data.all Char.isWhitespace

/-- Whether an `Except` is a raised exception. -/
def isErr : Except Err α → Bool
  | .error _ => true
  | .ok _ => false

/-- `add_item(item, qty)`: validate `item` (string, non-blank) and `qty`
(numeric, non-negative), then `stock_data[item] = stock_data.get(item, 0.0)
+ qty`.  Returns the exception or `()` plus the mapping after the call. -/
def add_item (st : Stock) (item qty : PyVal) : Except Err Unit × Stock :=
  match item with
  | .vStr s =>
      if isBlank s then (.error (.valueError "item must be a non-empty string"), st)
      else
        match qty with
        | .vNum q =>
            if q < 0 then (.error (.valueError "qty must be non-negative"), st)
            else (.ok (), setKey st s ((lookup st s).getD 0 + q))
        | _ => (.error (.valueError "qty must be numeric"), st)
  | _ => (.error (.valueError "item must be a non-empty string"), st)

/-- The `KeyError` message Python shows for a missing item, `'item'`. -/
def keyMsg (s : String) : String := "'" ++ s ++ "'"

/-- The message of `remove_item`'s `KeyError`. -/
def notFoundMsg (s : String) : String := "item '" ++ s ++ "' not found"

/-- The insufficient-stock message: it embeds the current quantity and the
requested removal amount. -/
def insufficientMsg (s : String) (cur q : ℚ) : String :=
  "insufficient stock for '" ++ s ++ "': have " ++ toString cur ++
    ", remove " ++ toString q

/-- `remove_item(item, qty)`: validate the arguments, require the item to
exist and the stock to suffice, then subtract; a quantity hitting exactly
zero deletes the key. -/
def remove_item (st : Stock) (item qty : PyVal) : Except Err Unit × Stock :=
  match item with
  | .vStr s =>
      if isBlank s then (.error (.valueError "item must be a non-empty string"), st)
      else
        match qty with
        | .vNum q =>
            if q ≤ 0 then (.error (.valueError "qty must be a positive number"), st)
            else
              match lookup st s with
              | none => (.error (.keyError (notFoundMsg s)), st)
              | some cur =>
                  if cur - q < 0 then
                    (.error (.valueError (insufficientMsg s cur q)), st)
                  else if cur - q = 0 then (.ok (), delKey st s)
                  else (.ok (), setKey st s (cur - q))
        | _ => (.error (.valueError "qty must be a positive number"), st)
  | _ => (.error (.valueError "item must be a non-empty string"), st)

/-- `get_qty(item)`: `float(stock_data[item])`; `KeyError` when absent. -/
def get_qty (st : Stock) (item : String) : Except Err ℚ × Stock :=
  match lookup st item with
  | none => (.error (.keyError (keyMsg item)), st)
  | some q => (.ok q, st)

/-- The value `json.load` hands to `load_data`: a JSON object (its entries
as parsed key-value pairs) or any non-object JSON value. -/
inductive Parsed where
  | obj (entries : List (PyVal × PyVal))
  | nonObj
deriving DecidableEq, Repr

/-- The validating loop of `load_data` after `stock_data.clear()`: insert
each entry whose key is a string and value a number, raise `ValueError` at
the first entry that is not, leaving the partially rebuilt mapping. -/
def loadEntries : Stock → List (PyVal × PyVal) → Except Err Unit × Stock
  | acc, [] => (.ok (), acc)
  | acc, (k, v) :: rest =>
      match k, v with
      | .vStr s, .vNum q => loadEntries (setKey acc s q) rest
      | _, _ =>
          (.error (.valueError "inventory must map strings to numeric quantities"), acc)

/-- `load_data`: reject a non-object top level, otherwise clear
`stock_data` and run the validate-and-insert loop over the entries. -/
def load_data (st : Stock) (data : Parsed) : Except Err Unit × Stock :=
  match data with
  | .nonObj => (.error (.valueError "inventory file must contain a JSON object"), st)
  | .obj entries => loadEntries [] entries

/-- `save_data`: serialize the mapping as a JSON object, key by key in
iteration order (what `json.load` parses back from the written file). -/
def save_data (st : Stock) : Parsed :=
  .obj (st.map fun p => (.vStr p.1, .vNum p.2))

/-- The list comprehension of `check_low_items`: names whose quantity is
strictly below the threshold, in iteration order. -/
def lowNames : Stock → ℚ → List String
  | [], _ => []
  | (k, v) :: rest, t => if v < t then k :: lowNames rest t else lowNames rest t

/-- `check_low_items(threshold)`: validate the threshold (numeric,
non-negative), then return the low-item names. -/
def check_low_items (st : Stock) (threshold : PyVal) : Except Err (List String) × Stock :=
  match threshold with
  | .vNum t =>
      if t < 0 then (.error (.valueError "threshold must be a non-negative number"), st)
      else (.ok (lowNames st t), st)
  | _ => (.error (.valueError "threshold must be a non-negative number"), st)

/-- `add_item()` with no arguments: Python fills in the defaults
`item="default"`, `qty=0` from the signature. -/
def add_item_defaults (st : Stock) : Except Err Unit × Stock :=
  add_item st (.vStr "default") (.vNum 0)

/-- One call to a mutating operation of the ledger, with its arguments. -/
inductive Op where
  | add (item qty : PyVal)
  | rem (item qty : PyVal)
  | load (data : Parsed)
deriving DecidableEq, Repr

/-- Whether the operation is a `load_data` call. -/
def isLoad : Op → Bool
  | .load _ => true
  | _ => false

/-- The mapping after one call (whether it returned or raised). -/
def runOp (st : Stock) : Op → Stock
  | .add item qty => (add_item st item qty).2
  | .rem item qty => (remove_item st item qty).2
  | .load data => (load_data st data).2

/-- The mapping after a sequence of calls. -/
def runOps (st : Stock) : List Op → Stock
  | [] => st
  | op :: rest => runOps (runOp st op) rest

/-- A state reachable from the empty ledger by add, remove and load calls. -/
def Reachable (st : Stock) : Prop :=
  ∃ ops : List Op, runOps [] ops = st

/-- A state reachable from the empty ledger by add and remove calls only. -/
def ReachableAR (st : Stock) : Prop :=
  ∃ ops : List Op, (∀ op ∈ ops, isLoad op = false) ∧ runOps [] ops = st

/-- The spec's validity condition on an item argument: a string that is
non-empty after trimming. -/
def specValidItem (v : PyVal) : Prop := ∃ s, v = .vStr s ∧ isBlank s = false

/-- The spec's validity condition on `add`'s quantity: numeric and ≥ 0. -/
def specValidAddQty (v : PyVal) : Prop := ∃ q : ℚ, v = .vNum q ∧ 0 ≤ q

/-- The spec's validity condition on `remove`'s quantity: numeric and > 0. -/
def specValidRemoveQty (v : PyVal) : Prop := ∃ q : ℚ, v = .vNum q ∧ 0 < q

/-- The spec's validity condition on a threshold: numeric and ≥ 0. -/
def specValidThreshold (v : PyVal) : Prop := ∃ t : ℚ, v = .vNum t ∧ 0 ≤ t

/-! ### Association-list lemmas -/

theorem lookup_mem {st : Stock} {k : String} {v : ℚ} (h : lookup st k = some v) :
    (k, v) ∈ st := by
  induction st with
  | nil => simp [lookup] at h
  | cons q rest ih =>
      obtain ⟨qk, qv⟩ := q
      by_cases hk : qk = k
      · subst hk
        simp [lookup] at h
        subst h
        exact List.mem_cons_self _ _
      · simp [lookup, hk] at h
        exact List.mem_cons_of_mem _ (ih h)

theorem mem_setKey {st : Stock} {k : String} {v : ℚ} {p : String × ℚ}
    (h : p ∈ setKey st k v) : p ∈ st ∨ p.2 = v := by
  induction st with
  | nil =>
      simp [setKey] at h
      right
      rw [h]
  | cons q rest ih =>
      obtain ⟨qk, qv⟩ := q
      by_cases hk : qk = k
      · simp [setKey, hk] at h
        rcases h with h | h
        · right
          rw [h]
        · exact Or.inl (List.mem_cons_of_mem _ h)
      · simp [setKey, hk] at h
        rcases h with h | h
        · left
          rw [h]
          exact List.mem_cons_self _ _
        · rcases ih h with h2 | h2
          · exact Or.inl (List.mem_cons_of_mem _ h2)
          · exact Or.inr h2

theorem mem_delKey {st : Stock} {k : String} {p : String × ℚ}
    (h : p ∈ delKey st k) : p ∈ st := by
  induction st with
  | nil => simp [delKey] at h
  | cons q rest ih =>
      obtain ⟨qk, qv⟩ := q
      by_cases hk : qk = k
      · simp [delKey, hk] at h
        exact List.mem_cons_of_mem _ h
      · simp [delKey, hk] at h
        rcases h with h | h
        · exact h ▸ List.mem_cons_self _ _
        · exact List.mem_cons_of_mem _ (ih h)

theorem lookup_setKey_self (st : Stock) (k : String) (v : ℚ) :
    lookup (setKey st k v) k = some v := by
  induction st with
  | nil => simp [setKey, lookup]
  | cons q rest ih =>
      obtain ⟨qk, qv⟩ := q
      by_cases hk : qk = k
      · simp [setKey, hk, lookup]
      · simp [setKey, hk, lookup, ih]

theorem lookup_setKey_of_ne (st : Stock) {k k2 : String} (v : ℚ) (h : k ≠ k2) :
    lookup (setKey st k v) k2 = lookup st k2 := by
  induction st with
  | nil => simp [setKey, lookup, h]
  | cons q rest ih =>
      obtain ⟨qk, qv⟩ := q
      by_cases hk : qk = k
      · subst hk
        simp [setKey, lookup, h]
      · simp [setKey, hk, lookup, ih]

theorem lookup_eq_none_iff {st : Stock} {k : String} :
    lookup st k = none ↔ k ∉ keys st := by
  induction st with
  | nil => simp [lookup, keys]
  | cons q rest ih =>
      obtain ⟨qk, qv⟩ := q
      by_cases hk : qk = k
      · subst hk
        simp [lookup, keys]
      · have hl : lookup ((qk, qv) :: rest) k = lookup rest k := by simp [lookup, hk]
        have hkeys : keys ((qk, qv) :: rest) = qk :: keys rest := rfl
        rw [hl, hkeys]
        constructor
        · intro hnone hmem
          rcases List.mem_cons.mp hmem with he | hm
          · exact hk he.symm
          · exact ih.mp hnone hm
        · intro hnmem
          exact ih.mpr fun hm => hnmem (List.mem_cons_of_mem _ hm)

theorem keys_delKey_not_mem {st : Stock} {k : String} (h : (keys st).Nodup) :
    k ∉ keys (delKey st k) := by
  induction st with
  | nil => simp [delKey, keys]
  | cons q rest ih =>
      obtain ⟨qk, qv⟩ := q
      rw [show keys ((qk, qv) :: rest) = qk :: keys rest from rfl, List.nodup_cons] at h
      obtain ⟨h1, h2⟩ := h
      by_cases hk : qk = k
      · subst hk
        simpa [delKey] using h1
      · rw [show delKey ((qk, qv) :: rest) k = (qk, qv) :: delKey rest k from by
            simp [delKey, hk]]
        rw [show keys ((qk, qv) :: delKey rest k) = qk :: keys (delKey rest k) from rfl]
        intro hmem
        rcases List.mem_cons.mp hmem with he | hm
        · exact hk he.symm
        · exact ih h2 hm

theorem mem_keys_of_mem_lowNames {st : Stock} {t : ℚ} {x : String}
    (h : x ∈ lowNames st t) : x ∈ keys st := by
  induction st with
  | nil => simp [lowNames] at h
  | cons q rest ih =>
      obtain ⟨qk, qv⟩ := q
      by_cases hv : qv < t
      · simp [lowNames, hv] at h
        rcases h with h | h
        · simp [keys, h]
        · simp [keys]
          exact Or.inr (by simpa [keys] using ih h)
      · simp [lowNames, hv] at h
        simp [keys]
        exact Or.inr (by simpa [keys] using ih h)

theorem setKey_eq_append {st : Stock} {k : String} (v : ℚ) (h : lookup st k = none) :
    setKey st k v = st ++ [(k, v)] := by
  induction st with
  | nil => simp [setKey]
  | cons q rest ih =>
      obtain ⟨qk, qv⟩ := q
      by_cases hk : qk = k
      · subst hk
        simp [lookup] at h
      · simp [lookup, hk] at h
        simp [setKey, hk, ih h]

theorem lookup_append_of_none {acc : Stock} {k2 : String} (tail : Stock)
    (h : lookup acc k2 = none) : lookup (acc ++ tail) k2 = lookup tail k2 := by
  induction acc with
  | nil => simp
  | cons q rest ih =>
      obtain ⟨qk, qv⟩ := q
      by_cases hk : qk = k2
      · subst hk
        simp [lookup] at h
      · simp [lookup, hk] at h ⊢
        exact ih h

/-! ### Frame-on-error and invariant-preservation lemmas -/

theorem add_item_state_of_err {st : Stock} {item qty : PyVal}
    (h : isErr (add_item st item qty).1 = true) : (add_item st item qty).2 = st := by
  cases item with
  | vStr s =>
      by_cases hb : isBlank s
      · simp [add_item, hb]
      · cases qty with
        | vNum q =>
            by_cases hq : q < 0
            · simp [add_item, hb, hq]
            · simp [add_item, hb, hq, isErr] at h
        | vStr s2 => simp [add_item, hb]
        | vOther => simp [add_item, hb]
  | vNum q => simp [add_item]
  | vOther => simp [add_item]

theorem remove_item_state_of_err {st : Stock} {item qty : PyVal}
    (h : isErr (remove_item st item qty).1 = true) : (remove_item st item qty).2 = st := by
  cases item with
  | vStr s =>
      by_cases hb : isBlank s
      · simp [remove_item, hb]
      · cases qty with
        | vNum q =>
            by_cases hq : q ≤ 0
            · simp [remove_item, hb, hq]
            · cases hl : lookup st s with
              | none => simp [remove_item, hb, hq, hl]
              | some cur =>
                  by_cases hins : cur - q < 0
                  · simp [remove_item, hb, hq, hl, hins]
                  · by_cases hz : cur - q = 0
                    · simp [remove_item, hb, hq, hl, hins, hz, isErr] at h
                    · simp [remove_item, hb, hq, hl, hins, hz, isErr] at h
        | vStr s2 => simp [remove_item, hb]
        | vOther => simp [remove_item, hb]
  | vNum q => simp [remove_item]
  | vOther => simp [remove_item]

theorem lookup_getD_nonneg {st : Stock} (s : String) (h : ∀ p ∈ st, 0 ≤ p.2) :
    0 ≤ (lookup st s).getD 0 := by
  cases hl : lookup st s with
  | none => simp
  | some c => simpa using h _ (lookup_mem hl)

theorem add_item_nonneg {st : Stock} (item qty : PyVal) (h : ∀ p ∈ st, 0 ≤ p.2) :
    ∀ p ∈ (add_item st item qty).2, 0 ≤ p.2 := by
  cases item with
  | vStr s =>
      by_cases hb : isBlank s
      · simpa [add_item, hb] using h
      · cases qty with
        | vNum q =>
            by_cases hq : q < 0
            · simpa [add_item, hb, hq] using h
            · intro p hp
              simp [add_item, hb, hq] at hp
              rcases mem_setKey hp with h2 | h2
              · exact h p h2
              · rw [h2]
                have h3 : 0 ≤ (lookup st s).getD 0 := lookup_getD_nonneg s h
                have h4 : 0 ≤ q := not_lt.mp hq
                linarith
        | vStr s2 => simpa [add_item, hb] using h
        | vOther => simpa [add_item, hb] using h
  | vNum q => simpa [add_item] using h
  | vOther => simpa [add_item] using h

theorem remove_item_nonneg {st : Stock} (item qty : PyVal) (h : ∀ p ∈ st, 0 ≤ p.2) :
    ∀ p ∈ (remove_item st item qty).2, 0 ≤ p.2 := by
  cases item with
  | vStr s =>
      by_cases hb : isBlank s
      · simpa [remove_item, hb] using h
      · cases qty with
        | vNum q =>
            by_cases hq : q ≤ 0
            · simpa [remove_item, hb, hq] using h
            · cases hl : lookup st s with
              | none => simpa [remove_item, hb, hq, hl] using h
              | some cur =>
                  by_cases hins : cur - q < 0
                  · simpa [remove_item, hb, hq, hl, hins] using h
                  · by_cases hz : cur - q = 0
                    · intro p hp
                      simp [remove_item, hb, hq, hl, hins, hz] at hp
                      exact h p (mem_delKey hp)
                    · intro p hp
                      simp [remove_item, hb, hq, hl, hins, hz] at hp
                      rcases mem_setKey hp with h2 | h2
                      · exact h p h2
                      · rw [h2]
                        exact not_lt.mp hins
        | vStr s2 => simpa [remove_item, hb] using h
        | vOther => simpa [remove_item, hb] using h
  | vNum q => simpa [remove_item] using h
  | vOther => simpa [remove_item] using h

theorem runOp_nonneg {st : Stock} {op : Op} (hop : isLoad op = false)
    (h : ∀ p ∈ st, 0 ≤ p.2) : ∀ p ∈ runOp st op, 0 ≤ p.2 := by
  cases op with
  | add item qty => exact add_item_nonneg item qty h
  | rem item qty => exact remove_item_nonneg item qty h
  | load data => simp [isLoad] at hop

theorem runOps_nonneg {ops : List Op} {st : Stock}
    (hops : ∀ op ∈ ops, isLoad op = false) (h : ∀ p ∈ st, 0 ≤ p.2) :
    ∀ p ∈ runOps st ops, 0 ≤ p.2 := by
  induction ops generalizing st with
  | nil => simpa [runOps] using h
  | cons op rest ih =>
      rw [show runOps st (op :: rest) = runOps (runOp st op) rest from rfl]
      exact ih (fun o ho => hops o (List.mem_cons_of_mem _ ho))
        (runOp_nonneg (hops op (List.mem_cons_self _ _)) h)

theorem reachableAR_nonneg {st : Stock} (h : ReachableAR st) : ∀ p ∈ st, 0 ≤ p.2 := by
  obtain ⟨ops, hops, hrun⟩ := h
  rw [← hrun]
  exact runOps_nonneg hops (by simp)

theorem lowNames_zero_of_nonneg {st : Stock} (h : ∀ p ∈ st, 0 ≤ p.2) :
    lowNames st 0 = [] := by
  induction st with
  | nil => simp [lowNames]
  | cons q rest ih =>
      obtain ⟨qk, qv⟩ := q
      have h1 : ¬ qv < 0 := not_lt.mpr (by simpa using h (qk, qv) (List.mem_cons_self _ _))
      simp [lowNames, h1]
      exact ih fun p hp => h p (List.mem_cons_of_mem _ hp)

/-! ### Characterizations of the spec-side validity predicates -/

theorem specValidItem_vStr {s : String} : specValidItem (.vStr s) ↔ isBlank s = false := by
  constructor
  · rintro ⟨s2, he, h2⟩
    injection he with h3
    rw [h3]
    exact h2
  · intro h
    exact ⟨s, rfl, h⟩

theorem specValidItem_not_num {q : ℚ} : ¬ specValidItem (.vNum q) := by
  rintro ⟨s, he, h2⟩
  exact PyVal.noConfusion he

theorem specValidItem_not_other : ¬ specValidItem .vOther := by
  rintro ⟨s, he, h2⟩
  exact PyVal.noConfusion he

theorem specValidAddQty_vNum {q : ℚ} : specValidAddQty (.vNum q) ↔ 0 ≤ q := by
  constructor
  · rintro ⟨q2, he, h2⟩
    injection he with h3
    rw [h3]
    exact h2
  · intro h
    exact ⟨q, rfl, h⟩

theorem specValidAddQty_not_str {s : String} : ¬ specValidAddQty (.vStr s) := by
  rintro ⟨q, he, h2⟩
  exact PyVal.noConfusion he

theorem specValidAddQty_not_other : ¬ specValidAddQty .vOther := by
  rintro ⟨q, he, h2⟩
  exact PyVal.noConfusion he

theorem specValidRemoveQty_vNum {q : ℚ} : specValidRemoveQty (.vNum q) ↔ 0 < q := by
  constructor
  · rintro ⟨q2, he, h2⟩
    injection he with h3
    rw [h3]
    exact h2
  · intro h
    exact ⟨q, rfl, h⟩

theorem specValidRemoveQty_not_str {s : String} : ¬ specValidRemoveQty (.vStr s) := by
  rintro ⟨q, he, h2⟩
  exact PyVal.noConfusion he

theorem specValidRemoveQty_not_other : ¬ specValidRemoveQty .vOther := by
  rintro ⟨q, he, h2⟩
  exact PyVal.noConfusion he

theorem specValidThreshold_vNum {t : ℚ} : specValidThreshold (.vNum t) ↔ 0 ≤ t := by
  constructor
  · rintro ⟨t2, he, h2⟩
    injection he with h3
    rw [h3]
    exact h2
  · intro h
    exact ⟨t, rfl, h⟩

theorem specValidThreshold_not_str {s : String} : ¬ specValidThreshold (.vStr s) := by
  rintro ⟨t, he, h2⟩
  exact PyVal.noConfusion he

theorem specValidThreshold_not_other : ¬ specValidThreshold .vOther := by
  rintro ⟨t, he, h2⟩
  exact PyVal.noConfusion he

/-! ### Query frame helpers -/

theorem get_qty_state (st : Stock) (item : String) : (get_qty st item).2 = st := by
  cases hl : lookup st item <;> simp [get_qty, hl]

theorem check_low_items_state (st : Stock) (thr : PyVal) :
    (check_low_items st thr).2 = st := by
  cases thr with
  | vNum t => by_cases ht : t < 0 <;> simp [check_low_items, ht]
  | vStr s => simp [check_low_items]
  | vOther => simp [check_low_items]

/-! ### check_low_items and load/save helpers -/

theorem lowNames_eq_filter (st : Stock) (t : ℚ) :
    lowNames st t = (st.filter fun p => decide (p.2 < t)).map Prod.fst := by
  induction st with
  | nil => simp [lowNames]
  | cons q rest ih =>
      obtain ⟨qk, qv⟩ := q
      by_cases hv : qv < t
      · simp [lowNames, hv, List.filter_cons, ih]
      · simp [lowNames, hv, List.filter_cons, ih]

theorem loadEntries_saved (st : Stock) (hnd : (keys st).Nodup) :
    ∀ acc : Stock, (∀ k ∈ keys st, lookup acc k = none) →
      loadEntries acc (st.map fun p => (.vStr p.1, .vNum p.2)) = (.ok (), acc ++ st) := by
  induction st with
  | nil =>
      intro acc _
      simp [loadEntries]
  | cons q rest ih =>
      intro acc hdisj
      obtain ⟨qk, qv⟩ := q
      rw [show keys ((qk, qv) :: rest) = qk :: keys rest from rfl, List.nodup_cons] at hnd
      obtain ⟨hqk, hnd2⟩ := hnd
      rw [List.map_cons]
      rw [show loadEntries acc
            ((PyVal.vStr qk, PyVal.vNum qv) :: rest.map fun p => (.vStr p.1, .vNum p.2)) =
          loadEntries (setKey acc qk qv) (rest.map fun p => (.vStr p.1, .vNum p.2)) from rfl]
      have hacc : lookup acc qk = none := hdisj qk (List.mem_cons_self _ _)
      rw [setKey_eq_append qv hacc]
      rw [ih hnd2 (acc ++ [(qk, qv)]) ?_]
      · simp
      · intro k hk
        have hne : qk ≠ k := fun he => hqk (he ▸ hk)
        rw [lookup_append_of_none [(qk, qv)] (hdisj k (List.mem_cons_of_mem _ hk))]
        simp [lookup, hne]

/-! ### Claim theorems -/

/-- C10: the query operations `get_qty` and `check_low_items` never modify
the stock mapping: for every state and every argument the mapping after the
call, whether it returns or raises, equals the mapping before the call. -/
theorem queries_leave_stock_unchanged (st : Stock) (item : String) (thr : PyVal) :
    (get_qty st item).2 = st ∧ (check_low_items st thr).2 = st :=
  ⟨get_qty_state st item, check_low_items_state st thr⟩

/-- C9: calling `add_item` with no arguments uses the declared defaults
`item="default"`, `qty=0`: the call succeeds, adds 0 to the entry named
`"default"`, and creates that entry with quantity 0 when it was absent. -/
theorem add_item_defaults_spec (st : Stock) :
    (add_item_defaults st).1 = .ok () ∧
    lookup (add_item_defaults st).2 "default" = some ((lookup st "default").getD 0 + 0) ∧
    (lookup st "default" = none → lookup (add_item_defaults st).2 "default" = some 0) := by
  have hb : isBlank "default" = false := by decide
  refine ⟨?_, ?_, ?_⟩
  · norm_num [add_item_defaults, add_item, hb]
  · norm_num [add_item_defaults, add_item, hb, lookup_setKey_self]
  · intro h
    norm_num [add_item_defaults, add_item, hb, lookup_setKey_self, h]

/-- Witness for C9 at the empty ledger: the `"default"` entry is created
with quantity 0. -/
theorem add_item_defaults_spec_witness :
    lookup (add_item_defaults []).2 "default" = some 0 :=
  (add_item_defaults_spec []).2.2 rfl

/-- C4: `add_item` raises exactly when the item is not a non-blank string
or the quantity is not a non-negative number, and every such failure is a
`ValueError`; on valid input it sets the entry to the previous quantity
(0 when absent) plus `qty`, a following `get_qty` returns that sum, and
adding 0 to a fresh ledger creates a queryable zero-quantity entry. -/
theorem add_item_spec (st : Stock) (item qty : PyVal) :
    (isErr (add_item st item qty).1 = true ↔
      ¬ (specValidItem item ∧ specValidAddQty qty)) ∧
    (isErr (add_item st item qty).1 = true →
      ∃ m, (add_item st item qty).1 = .error (.valueError m)) ∧
    (∀ s q, item = .vStr s → isBlank s = false → qty = .vNum q → 0 ≤ q →
      add_item st item qty = (.ok (), setKey st s ((lookup st s).getD 0 + q)) ∧
      (get_qty (add_item st item qty).2 s).1 = .ok ((lookup st s).getD 0 + q)) ∧
    (∀ s, isBlank s = false →
      (get_qty (add_item [] (.vStr s) (.vNum 0)).2 s).1 = .ok ((0:ℚ))) := by
  have hlast : ∀ s2 : String, isBlank s2 = false →
      (get_qty (add_item [] (.vStr s2) (.vNum 0)).2 s2).1 = .ok ((0:ℚ)) := by
    intro s2 hb2
    norm_num [add_item, hb2, get_qty, setKey, lookup]
  cases item with
  | vStr s =>
      by_cases hb : isBlank s
      · refine ⟨?_, ?_, ?_, hlast⟩
        · simp [add_item, hb, isErr, specValidItem_vStr]
        · intro h
          exact ⟨"item must be a non-empty string", by simp [add_item, hb]⟩
        · intro s2 q he hb2 hqe hq0
          injection he with he2
          rw [← he2] at hb2
          rw [hb] at hb2
          exact Bool.noConfusion hb2
      · rw [Bool.not_eq_true] at hb
        cases qty with
        | vNum q =>
            by_cases hq : q < 0
            · refine ⟨?_, ?_, ?_, hlast⟩
              · simp [add_item, hb, hq, isErr, specValidItem_vStr,
                  specValidAddQty_vNum, not_le, hq]
              · intro h
                exact ⟨"qty must be non-negative", by simp [add_item, hb, hq]⟩
              · intro s2 q2 he hb2 hqe hq0
                injection hqe with hqe2
                subst hqe2
                linarith
            · refine ⟨?_, ?_, ?_, hlast⟩
              · simp [add_item, hb, hq, isErr, specValidItem_vStr,
                  specValidAddQty_vNum, not_lt.mp hq]
              · intro h
                simp [add_item, hb, hq, isErr] at h
              · intro s2 q2 he hb2 hqe hq0
                injection he with he2
                injection hqe with hqe2
                subst he2
                subst hqe2
                constructor
                · simp [add_item, hb, hq]
                · simp [add_item, hb, hq, get_qty, lookup_setKey_self]
        | vStr s2 =>
            refine ⟨?_, ?_, ?_, hlast⟩
            · simp [add_item, hb, isErr, specValidItem_vStr, specValidAddQty_not_str]
            · intro h
              exact ⟨"qty must be numeric", by simp [add_item, hb]⟩
            · intro s3 q he hb2 hqe hq0
              exact PyVal.noConfusion hqe
        | vOther =>
            refine ⟨?_, ?_, ?_, hlast⟩
            · simp [add_item, hb, isErr, specValidItem_vStr, specValidAddQty_not_other]
            · intro h
              exact ⟨"qty must be numeric", by simp [add_item, hb]⟩
            · intro s3 q he hb2 hqe hq0
              exact PyVal.noConfusion hqe
  | vNum q =>
      refine ⟨?_, ?_, ?_, hlast⟩
      · simp [add_item, isErr, specValidItem_not_num]
      · intro h
        exact ⟨"item must be a non-empty string", by simp [add_item]⟩
      · intro s q2 he hb2 hqe hq0
        exact PyVal.noConfusion he
  | vOther =>
      refine ⟨?_, ?_, ?_, hlast⟩
      · simp [add_item, isErr, specValidItem_not_other]
      · intro h
        exact ⟨"item must be a non-empty string", by simp [add_item]⟩
      · intro s q2 he hb2 hqe hq0
        exact PyVal.noConfusion he

/-- Witness for C4: adding 7 apples to the empty ledger succeeds and a
following `get_qty` returns 7; adding 0 to a fresh ledger leaves a
queryable zero entry. -/
theorem add_item_spec_witness :
    (add_item [] (.vStr "apple") (.vNum 7) =
      (.ok (), setKey [] "apple" ((lookup [] "apple").getD 0 + 7))) ∧
    (get_qty (add_item [] (.vStr "apple") (.vNum 7)).2 "apple").1 =
      .ok ((lookup [] "apple").getD 0 + 7) ∧
    (get_qty (add_item [] (.vStr "x") (.vNum 0)).2 "x").1 = .ok ((0:ℚ)) :=
  ⟨((add_item_spec [] (.vStr "apple") (.vNum 7)).2.2.1 "apple" 7 rfl (by decide)
      rfl (by norm_num)).1,
   ((add_item_spec [] (.vStr "apple") (.vNum 7)).2.2.1 "apple" 7 rfl (by decide)
      rfl (by norm_num)).2,
   (add_item_spec [] (.vStr "x") (.vNum 0)).2.2.2 "x" (by decide)⟩

/-- C5: `remove_item` checks its errors in order with the first match
winning: `ValueError` for an invalid item or non-positive/non-numeric
quantity, then `KeyError` for a missing item, then the insufficient-stock
`ValueError`, whose message spells out the current quantity and the
requested removal amount. -/
theorem remove_item_error_order (st : Stock) (item qty : PyVal) :
    (¬ specValidItem item →
      remove_item st item qty =
        (.error (.valueError "item must be a non-empty string"), st)) ∧
    (specValidItem item → ¬ specValidRemoveQty qty →
      remove_item st item qty =
        (.error (.valueError "qty must be a positive number"), st)) ∧
    (∀ s q, item = .vStr s → isBlank s = false → qty = .vNum q → 0 < q →
      lookup st s = none →
      remove_item st item qty = (.error (.keyError (notFoundMsg s)), st)) ∧
    (∀ s q cur, item = .vStr s → isBlank s = false → qty = .vNum q → 0 < q →
      lookup st s = some cur → cur - q < 0 →
      remove_item st item qty =
        (.error (.valueError (insufficientMsg s cur q)), st)) ∧
    (∀ s cur q, insufficientMsg s cur q =
      "insufficient stock for '" ++ s ++ "': have " ++ toString cur ++
        ", remove " ++ toString q) := by
  refine ⟨?_, ?_, ?_, ?_, fun s cur q => rfl⟩
  · intro hni
    cases item with
    | vStr s =>
        by_cases hb : isBlank s
        · simp [remove_item, hb]
        · rw [Bool.not_eq_true] at hb
          exact absurd (specValidItem_vStr.mpr hb) hni
    | vNum q2 => simp [remove_item]
    | vOther => simp [remove_item]
  · intro hvi hnq
    obtain ⟨s, he, hb⟩ := hvi
    subst he
    cases qty with
    | vNum q =>
        have hq : q ≤ 0 := not_lt.mp fun h => hnq (specValidRemoveQty_vNum.mpr h)
        simp [remove_item, hb, hq]
    | vStr s2 => simp [remove_item, hb]
    | vOther => simp [remove_item, hb]
  · intro s q he hb hqe hq hl
    subst he
    subst hqe
    have hqn : ¬ q ≤ 0 := not_le.mpr hq
    simp [remove_item, hb, hqn, hl]
  · intro s q cur he hb hqe hq hl hins
    subst he
    subst hqe
    have hqn : ¬ q ≤ 0 := not_le.mpr hq
    simp [remove_item, hb, hqn, hl, hins]

/-- Witness for C5, one concrete input per error stage. -/
theorem remove_item_error_order_witness :
    remove_item [] .vOther .vOther =
      (.error (.valueError "item must be a non-empty string"), []) ∧
    remove_item [] (.vStr "a") .vOther =
      (.error (.valueError "qty must be a positive number"), []) ∧
    remove_item [] (.vStr "a") (.vNum 1) =
      (.error (.keyError (notFoundMsg "a")), []) ∧
    remove_item [("a", (2:ℚ))] (.vStr "a") (.vNum 5) =
      (.error (.valueError (insufficientMsg "a" 2 5)), [("a", 2)]) :=
  ⟨(remove_item_error_order [] .vOther .vOther).1 specValidItem_not_other,
   (remove_item_error_order [] (.vStr "a") .vOther).2.1
     ⟨"a", rfl, by decide⟩ specValidRemoveQty_not_other,
   (remove_item_error_order [] (.vStr "a") (.vNum 1)).2.2.1 "a" 1 rfl (by decide)
     rfl (by norm_num) rfl,
   (remove_item_error_order [("a", 2)] (.vStr "a") (.vNum 5)).2.2.2.1 "a" 5 2 rfl
     (by decide) rfl (by norm_num) rfl (by norm_num)⟩

/-- C6: a successful `remove_item` leaves quantity `cur - q`; when that is
exactly 0 the key is deleted, so `get_qty` then raises `KeyError` and the
item appears in no `check_low_items` result; otherwise the entry is
updated to `cur - q`. -/
theorem remove_item_success_spec (st : Stock) (s : String) (q cur : ℚ)
    (hnd : (keys st).Nodup) (hb : isBlank s = false) (hq : 0 < q)
    (hcur : lookup st s = some cur) (hge : 0 ≤ cur - q) :
    (remove_item st (.vStr s) (.vNum q)).1 = .ok () ∧
    (cur - q = 0 →
      (remove_item st (.vStr s) (.vNum q)).2 = delKey st s ∧
      lookup (remove_item st (.vStr s) (.vNum q)).2 s = none ∧
      (get_qty (remove_item st (.vStr s) (.vNum q)).2 s).1 =
        .error (.keyError (keyMsg s)) ∧
      (∀ t : ℚ, s ∉ lowNames (remove_item st (.vStr s) (.vNum q)).2 t)) ∧
    (cur - q ≠ 0 →
      (remove_item st (.vStr s) (.vNum q)).2 = setKey st s (cur - q) ∧
      lookup (remove_item st (.vStr s) (.vNum q)).2 s = some (cur - q)) := by
  have hqn : ¬ q ≤ 0 := not_le.mpr hq
  have hins : ¬ cur - q < 0 := not_lt.mpr hge
  by_cases hz : cur - q = 0
  · have hst : (remove_item st (.vStr s) (.vNum q)).2 = delKey st s := by
      simp [remove_item, hb, hqn, hcur, hins, hz]
    have hlk : lookup (delKey st s) s = none :=
      lookup_eq_none_iff.mpr (keys_delKey_not_mem hnd)
    refine ⟨by simp [remove_item, hb, hqn, hcur, hins, hz], ?_,
      fun hnz => absurd hz hnz⟩
    intro _
    refine ⟨hst, by rw [hst]; exact hlk, ?_, ?_⟩
    · rw [hst]
      simp [get_qty, hlk]
    · intro t hmem
      rw [hst] at hmem
      exact keys_delKey_not_mem hnd (mem_keys_of_mem_lowNames hmem)
  · have hst : (remove_item st (.vStr s) (.vNum q)).2 = setKey st s (cur - q) := by
      simp [remove_item, hb, hqn, hcur, hins, hz]
    refine ⟨by simp [remove_item, hb, hqn, hcur, hins, hz],
      fun hzz => absurd hzz hz, ?_⟩
    intro _
    exact ⟨hst, by rw [hst]; exact lookup_setKey_self st s (cur - q)⟩

/-- Witness for C6: removing all 7 apples deletes the key; removing 3 of
10 leaves 7. -/
theorem remove_item_success_spec_witness :
    lookup (remove_item [("apple", (7:ℚ))] (.vStr "apple") (.vNum 7)).2 "apple" = none ∧
    lookup (remove_item [("apple", (10:ℚ))] (.vStr "apple") (.vNum 3)).2 "apple" =
      some (10 - 3) :=
  ⟨((remove_item_success_spec [("apple", 7)] "apple" 7 7 (by decide) (by decide)
      (by norm_num) rfl (by norm_num)).2.1 (by norm_num)).2.1,
   ((remove_item_success_spec [("apple", 10)] "apple" 3 10 (by decide) (by decide)
      (by norm_num) rfl (by norm_num)).2.2 (by norm_num)).2⟩

/-- C8: `check_low_items` raises `ValueError` exactly for a non-numeric or
negative threshold; otherwise it returns precisely the items with quantity
strictly below the threshold, in the mapping's iteration order. -/
theorem check_low_items_spec (st : Stock) (thr : PyVal) :
    (¬ specValidThreshold thr →
      check_low_items st thr =
        (.error (.valueError "threshold must be a non-negative number"), st)) ∧
    (∀ t : ℚ, thr = .vNum t → 0 ≤ t →
      check_low_items st thr = (.ok (lowNames st t), st) ∧
      lowNames st t = (st.filter fun p => decide (p.2 < t)).map Prod.fst) := by
  constructor
  · intro hnt
    cases thr with
    | vNum t =>
        have ht : t < 0 := not_le.mp fun h => hnt (specValidThreshold_vNum.mpr h)
        simp [check_low_items, ht]
    | vStr s => simp [check_low_items]
    | vOther => simp [check_low_items]
  · intro t he ht
    subst he
    have hnl : ¬ t < 0 := not_lt.mpr ht
    exact ⟨by simp [check_low_items, hnl], lowNames_eq_filter st t⟩

/-- Witness for C8: a valid threshold filters the low items, a non-numeric
one raises. -/
theorem check_low_items_spec_witness :
    check_low_items [("a", (1:ℚ)), ("b", 9)] (.vNum 5) =
      (.ok (lowNames [("a", (1:ℚ)), ("b", 9)] 5), [("a", 1), ("b", 9)]) ∧
    check_low_items [] .vOther =
      (.error (.valueError "threshold must be a non-negative number"), []) :=
  ⟨((check_low_items_spec [("a", 1), ("b", 9)] (.vNum 5)).2 5 rfl (by norm_num)).1,
   (check_low_items_spec [] .vOther).1 specValidThreshold_not_other⟩

/-- C7: for every ledger state with unique keys (every Python dict has
unique keys), `save_data` followed by `load_data` rebuilds exactly the
mapping that was saved, whatever mapping was in memory before the load. -/
theorem save_load_round_trip (st prev : Stock) (hnd : (keys st).Nodup) :
    load_data prev (save_data st) = (.ok (), st) := by
  have h := loadEntries_saved st hnd [] fun k _ => rfl
  rw [show load_data prev (save_data st) =
      loadEntries [] (st.map fun p => (.vStr p.1, .vNum p.2)) from rfl]
  simpa using h

/-- Witness for C7 on a two-item ledger over an unrelated prior mapping. -/
theorem save_load_round_trip_witness :
    load_data [("z", (9:ℚ))] (save_data [("apple", (7:ℚ)), ("banana", 2)]) =
      (.ok (), [("apple", 7), ("banana", 2)]) :=
  save_load_round_trip [("apple", 7), ("banana", 2)] [("z", 9)] (by decide)

/-- C1 (amended): any raise of `add_item` or `remove_item`, any call of
the queries, and a `load_data` raise on a non-object top level leave the
mapping exactly as before the call; but a `load_data` raise during entry
validation does not restore the prior mapping — the state after it is the
state of loading the same data into an empty ledger (clear-then-partial
insert). -/
theorem ledger_error_frame :
    (∀ st item qty, isErr (add_item st item qty).1 = true →
      (add_item st item qty).2 = st) ∧
    (∀ st item qty, isErr (remove_item st item qty).1 = true →
      (remove_item st item qty).2 = st) ∧
    (∀ st item, (get_qty st item).2 = st) ∧
    (∀ st thr, (check_low_items st thr).2 = st) ∧
    (∀ st, (load_data st .nonObj).2 = st) ∧
    (∀ st entries, (load_data st (.obj entries)).2 =
      (load_data [] (.obj entries)).2) :=
  ⟨fun _ _ _ h => add_item_state_of_err h,
   fun _ _ _ h => remove_item_state_of_err h,
   get_qty_state, check_low_items_state,
   fun _ => rfl, fun _ _ => rfl⟩

/-- Witness for C1 (amended) at concrete failing calls. -/
theorem ledger_error_frame_witness :
    (add_item [("a", (1:ℚ))] .vOther (.vNum 1)).2 = [("a", 1)] ∧
    (remove_item [("a", (1:ℚ))] (.vStr "b") (.vNum 1)).2 = [("a", 1)] :=
  ⟨ledger_error_frame.1 [("a", 1)] .vOther (.vNum 1) rfl,
   ledger_error_frame.2.1 [("a", 1)] (.vStr "b") (.vNum 1) rfl⟩

/-- C1 as stated is false: `load_data` over the prior mapping
`[("apple", 7)]`, fed a parsed object whose single value is non-numeric,
raises and yet does not leave the previous mapping — the state after the
call is the cleared (empty) mapping. -/
theorem load_error_frame_counterexample :
    isErr (load_data [("apple", (7:ℚ))] (.obj [(.vStr "b", .vOther)])).1 = true ∧
    (load_data [("apple", (7:ℚ))] (.obj [(.vStr "b", .vOther)])).2 ≠
      [("apple", (7:ℚ))] :=
  ⟨rfl, by decide⟩

/-- C2 as stated is false: `add_item("x", 0)` from the empty ledger reaches
the state `[("x", 0)]`, whose sole entry is not strictly positive. -/
theorem reachable_positive_counterexample :
    ¬ (∀ st : Stock, Reachable st → ∀ p ∈ st, 0 < p.2) := by
  intro h
  have h1 : Reachable [("x", (0:ℚ))] :=
    ⟨[.add (.vStr "x") (.vNum 0)], by
      norm_num [runOps, runOp, add_item, setKey, lookup,
        show isBlank "x" = false from by decide]⟩
  exact lt_irrefl 0 (h _ h1 ("x", 0) (List.mem_cons_self _ _))

/-- C2 amended: in every state reachable from the empty ledger by
`add_item` and `remove_item` calls alone, every stored quantity is
non-negative; strict positivity fails (adding 0 stores a zero entry) and
`load_data` can moreover introduce negative quantities, as it validates
only that values are numeric. -/
theorem reachableAR_quantities_nonneg (st : Stock) (h : ReachableAR st) :
    ∀ p ∈ st, 0 ≤ p.2 :=
  reachableAR_nonneg h

/-- Witness for C2 (amended) on the state reached by a single add of 5. -/
theorem reachableAR_quantities_nonneg_witness :
    (0:ℚ) ≤ (("x", (5:ℚ))).2 :=
  reachableAR_quantities_nonneg [("x", 5)]
    ⟨[.add (.vStr "x") (.vNum 5)], by decide, by
      norm_num [runOps, runOp, add_item, setKey, lookup,
        show isBlank "x" = false from by decide]⟩
    ("x", 5) (List.mem_cons_self _ _)

/-- C3 as stated is false: loading the valid JSON object that maps "a" to
-1 reaches a state where `check_low_items(0)` returns `["a"]`, not the
empty list. -/
theorem check_low_zero_counterexample :
    ¬ (∀ st : Stock, Reachable st →
        (check_low_items st (.vNum 0)).1 = .ok []) := by
  intro h
  have h1 : Reachable [("a", (-1:ℚ))] :=
    ⟨[.load (.obj [(.vStr "a", .vNum (-1))])], by
      norm_num [runOps, runOp, load_data, loadEntries, setKey]⟩
  have h2 := h _ h1
  norm_num [check_low_items, lowNames] at h2

/-- C3 amended: in every state reachable by `add_item` and `remove_item`
alone, `check_low_items(0)` returns the empty list — no such state stores
a quantity below 0 (`load_data` can break this by loading negatives). -/
theorem check_low_items_zero_empty (st : Stock) (h : ReachableAR st) :
    (check_low_items st (.vNum 0)).1 = .ok [] := by
  have hz : lowNames st 0 = [] := lowNames_zero_of_nonneg (reachableAR_nonneg h)
  norm_num [check_low_items, hz]

/-- Witness for C3 (amended) at the empty (trivially reachable) state. -/
theorem check_low_items_zero_empty_witness :
    (check_low_items [] (.vNum 0)).1 = .ok [] :=
  check_low_items_zero_empty [] ⟨[], by simp, rfl⟩
